import Mathlib

/-!
Shallow embedding of the raspi camera discovery / capture / framing stack.

Source files modelled here:
- frame_receiver.py: recv_exact and handle_client (the length-prefixed
  "IMG1" frame stream decoder);
- cam_sender_picam2.py: the per-frame wire encoding (magic, big-endian
  uint16 name length, big-endian uint32 image length, name bytes, image
  bytes);
- capture_service.py: CaptureWorker.capture_and_send (the capture loop,
  its per-frame HTTP upload and its inter-frame sleeps);
- discover_and_capture.py: RaspiRegistry (update / list_all / latest /
  find_by_host), choose_target, and the discovery wait loop of main;
- receiver_vlm.py: the session-directory resolution in _session_dir.

Conventions: bytes are Nat values; wall-clock instants are Int seconds
(the registry and session code only ever compare them and format them at
one-second granularity); the sleep interval of the capture loop is a
rational number standing for the Python float; opaque external effects
(camera reads, JPEG encoding, file writes, actual sockets) are either
parameters or eliminated, keeping only the data each claim is about.
-/

namespace Raspi

/- ============ FrameTransport wire protocol ============ -/

/-- One frame of the wire protocol at byte level: the name payload and the
image payload, as sent by cam_sender_picam2.py and decoded by
frame_receiver.py. -/
structure FrameMsg where
  name : List Nat
  image : List Nat
deriving DecidableEq, Repr

/-- The 4 magic bytes b"IMG1". -/
def magic : List Nat := [73, 77, 71, 49]

/-- Big-endian 2-byte encoding, as produced by struct.pack with format !H
(values below 2 to the 16 are encoded faithfully). -/
def be16 (n : Nat) : List Nat := [n / 256 % 256, n % 256]

/-- Big-endian 4-byte encoding, as produced by struct.pack with format !I. -/
def be32 (n : Nat) : List Nat :=
  [n / 16777216 % 256, n / 65536 % 256, n / 256 % 256, n % 256]

/-- Big-endian 2-byte decoding, as done by struct.unpack with format !H. -/
def unpack16 (b : List Nat) : Nat :=
  match b with
  | [a, c] => a * 256 + c
  | _ => 0

/-- Big-endian 4-byte decoding, as done by struct.unpack with format !I. -/
def unpack32 (b : List Nat) : Nat :=
  match b with
  | [a, b2, c, d] => ((a * 256 + b2) * 256 + c) * 256 + d
  | _ => 0

/-- The byte sequence the sender emits for one frame
(cam_sender_picam2.py lines 50 to 57: magic, packed name length, packed
image length, name bytes, image bytes). -/
def encodeFrame (f : FrameMsg) : List Nat :=
  magic ++ be16 f.name.length ++ be32 f.image.length ++ f.name ++ f.image

/-- The byte stream for a sequence of frames sent back to back over one
connection. -/
def encodeStream : List FrameMsg → List Nat
  | [] => []
  | f :: fs => encodeFrame f ++ encodeStream fs

/-- A frame is encodable iff its length fields fit the packed formats. -/
def ValidFrame (f : FrameMsg) : Prop :=
  f.name.length < 65536 ∧ f.image.length < 4294967296

instance (f : FrameMsg) : Decidable (ValidFrame f) := by
  unfold ValidFrame; infer_instance

/-- recv_exact of frame_receiver.py on a fully buffered stream: read
exactly n bytes, or fail with ConnectionError (None here) when the
connection closes first. -/
def recv_exact (s : List Nat) (n : Nat) : Option (List Nat × List Nat) :=
  if n ≤ s.length then some (s.take n, s.drop n) else none

/-- Outcome of handle_client on one connection: clean end of stream, the
ValueError "bad magic", or the ConnectionError "socket closed" raised by
recv_exact mid-frame. Each outcome carries the frames stored before it.
outOfFuel is the artefact of the fuelled recursion and is never reached
when the fuel exceeds the frame count. -/
inductive DecResult where
  | eos (frames : List FrameMsg)
  | badMagic (frames : List FrameMsg)
  | connClosed (frames : List FrameMsg)
  | outOfFuel
deriving DecidableEq, Repr

/-- The loop body of handle_client in frame_receiver.py: read up to 4
header bytes with recv (empty means clean close, then break); compare to
the magic (mismatch raises ValueError); then read the exact name length,
image length, name and image with recv_exact, store the frame, repeat. -/
def handleLoop : Nat → List Nat → List FrameMsg → DecResult
  | 0, _, _ => DecResult.outOfFuel
  | fuel + 1, s, acc =>
    if s.isEmpty then DecResult.eos acc.reverse
    else if s.take 4 = magic then
      match recv_exact (s.drop 4) 2 with
      | none => DecResult.connClosed acc.reverse
      | some (nlb, s1) =>
        match recv_exact s1 4 with
        | none => DecResult.connClosed acc.reverse
        | some (ilb, s2) =>
          match recv_exact s2 (unpack16 nlb) with
          | none => DecResult.connClosed acc.reverse
          | some (nb, s3) =>
            match recv_exact s3 (unpack32 ilb) with
            | none => DecResult.connClosed acc.reverse
            | some (ib, _s4) => handleLoop fuel _s4 (FrameMsg.mk nb ib :: acc)
    else DecResult.badMagic acc.reverse

/-- handle_client on the complete byte stream of one connection; the fuel
is one more than the stream length, which always suffices because every
stored frame consumes at least ten bytes. -/
def handle_client (s : List Nat) : DecResult :=
  handleLoop (s.length + 1) s []

/- ============ CaptureWorker.capture_and_send ============ -/

/-- Observable events of one capture_and_send call: a frame event is one
capture-encode-upload iteration, recorded with the name form field and
the numeric index sent as the separate index form field; a sleep event is
one time.sleep call with its duration. -/
inductive Ev where
  | frame (name : String) (index : Nat)
  | sleep (dur : ℚ)
deriving DecidableEq, Repr

/-- The body of the loop in CaptureWorker.capture_and_send
(capture_service.py lines 195 to 217), unrolled from iteration i with the
given number of remaining iterations: each iteration captures, encodes
and uploads one frame with form fields name and str(i), then sleeps for
interval seconds when i < count - 1 and interval > 0. -/
def captureFrom (name : String) (count : Int) (interval : ℚ) :
    Nat → Nat → List Ev
  | _, 0 => []
  | i, fuel + 1 =>
    Ev.frame name i ::
      ((if (i : Int) < count - 1 ∧ 0 < interval then [Ev.sleep interval] else []) ++
        captureFrom name count interval (i + 1) fuel)

/-- CaptureWorker.capture_and_send: loop for i in range(max(1, count)). -/
def capture_and_send (name : String) (count : Int) (interval : ℚ) : List Ev :=
  captureFrom name count interval 0 (max 1 count).toNat

/- ============ RaspiRegistry ============ -/

/-- The JSON beacon payload as used by RaspiRegistry.update: the string
fields it reads, each possibly absent. -/
structure Payload where
  type : Option String
  host : Option String
  ip : Option String
  iface : Option String
  receiver_url : Option String
deriving DecidableEq, Repr

/-- One value of the registry table: host, ip, iface, receiver_url,
last_seen and the raw payload, as built by RaspiRegistry.update. -/
structure PeerInfo where
  host : String
  ip : String
  iface : String
  receiver_url : String
  last_seen : Int
  raw : Payload
deriving DecidableEq, Repr

/-- The registry dict in insertion order: keys mapped to peer records. -/
abbrev RaspiRegistry := List (String × PeerInfo)

/-- Python string-or default: the expression (v or d) on an optional
string, where None and the empty string are falsy. -/
def strOr (v : Option String) (d : String) : String :=
  match v with
  | none => d
  | some s => if s = "" then d else s

/-- Python dict assignment d[k] = v: replace the value in place when the
key is present, append otherwise. -/
def dictUpsert {β : Type} (l : List (String × β)) (k : String) (v : β) :
    List (String × β) :=
  match l with
  | [] => [(k, v)]
  | (k', v') :: rest =>
    if k' = k then (k, v) :: rest else (k', v') :: dictUpsert rest k v

/-- The key derived by RaspiRegistry.update for a payload arriving from
src_ip. -/
def payloadKey (p : Payload) (src_ip : String) : String :=
  strOr p.host "raspi" ++ "@" ++ strOr p.ip src_ip

/-- RaspiRegistry.update: ignore payloads whose type is not raspi_cam,
default host to raspi and ip to the datagram source address, and upsert
the record under host@ip with last_seen set to now. -/
def RaspiRegistry.update (reg : RaspiRegistry) (p : Payload) (src_ip : String)
    (now : Int) : RaspiRegistry :=
  if p.type ≠ some "raspi_cam" then reg
  else
    dictUpsert reg (payloadKey p src_ip)
      (PeerInfo.mk (strOr p.host "raspi") (strOr p.ip src_ip)
        (strOr p.iface "") (strOr p.receiver_url "") now p)

/-- Stable descending insertion by last_seen: the new element goes after
every element whose last_seen is at least its own, modelling the stable
Python sorted with key last_seen and reverse=True. -/
def insertDesc (x : PeerInfo) : List PeerInfo → List PeerInfo
  | [] => [x]
  | y :: ys =>
    if x.last_seen ≤ y.last_seen then y :: insertDesc x ys else x :: y :: ys

/-- Stable descending sort by last_seen, modelling sorted(values,
key last_seen, reverse=True). -/
def sortDesc (l : List PeerInfo) : List PeerInfo :=
  l.foldl (fun acc x => insertDesc x acc) []

/-- RaspiRegistry.list_all: all records, newest first (stable sort of the
table values by last_seen, descending). -/
def RaspiRegistry.list_all (reg : RaspiRegistry) : List PeerInfo :=
  sortDesc (reg.map Prod.snd)

/-- RaspiRegistry.latest: the first record of list_all, or none. -/
def RaspiRegistry.latest (reg : RaspiRegistry) : Option PeerInfo :=
  (RaspiRegistry.list_all reg).head?

/-- ASCII lowercasing of one character, modelling Python str.lower on the
ASCII hostnames this system uses. -/
def pyLowerChar (c : Char) : Char :=
  if 'A' ≤ c ∧ c ≤ 'Z' then Char.ofNat (c.toNat + 32) else c

/-- Lowercase a whole string. -/
def pyLower (s : String) : String := String.mk (s.data.map pyLowerChar)

/-- Python substring test (sub in s) over character lists. -/
def substrB (sub : List Char) : List Char → Bool
  | [] => sub.isEmpty
  | c :: cs => sub.isPrefixOf (c :: cs) || substrB sub cs

/-- The match predicate of RaspiRegistry.find_by_host: the lowercased
needle occurs in the lowercased host. -/
def hostMatches (host_sub : String) (info : PeerInfo) : Bool :=
  substrB (pyLower host_sub).data (pyLower info.host).data

/-- RaspiRegistry.find_by_host: first case-insensitive substring match in
list_all order (newest first). -/
def RaspiRegistry.find_by_host (reg : RaspiRegistry) (host_sub : String) :
    Option PeerInfo :=
  (RaspiRegistry.list_all reg).find? (hostMatches host_sub)

/- ============ Selector and discovery wait loop ============ -/

/-- choose_target of discover_and_capture.py: with a (truthy) host hint,
find_by_host must match, else latest must be nonempty; none stands for
the RuntimeError raised when nothing is discovered. -/
def choose_target (reg : RaspiRegistry) (host_hint : Option String) :
    Option PeerInfo :=
  match host_hint with
  | some h => RaspiRegistry.find_by_host reg h
  | none => RaspiRegistry.latest reg

/-- Outcome of the discovery phase of main in discover_and_capture.py:
either a selected target, or the SystemExit raised with a message string,
which terminates the CLI with a non-zero (1) status. -/
inductive Outcome where
  | selected (p : PeerInfo)
  | exitNonZero (msg : String)
deriving Repr

/-- The wait loop of main: while the current time is before the deadline,
attempt choose_target on the registry as currently filled by the listener
(modelled as the function regs from attempt number to registry contents);
on RuntimeError sleep half a second and retry. Time is advanced by the
half-second sleeps; the loop provably terminates, so discovery can never
block indefinitely. -/
def waitLoop (regs : Nat → RaspiRegistry) (hint : Option String)
    (deadline t : ℚ) (k : Nat) : Option PeerInfo :=
  if t < deadline then
    match choose_target (regs k) hint with
    | some p => some p
    | none => waitLoop regs hint deadline (t + 1/2) (k + 1)
  else none
termination_by (⌈(deadline - t) * 2⌉).toNat
decreasing_by
  rw [show (deadline - (t + 1/2)) * 2 = (deadline - t) * 2 - 1 by ring,
    Int.ceil_sub_one]
  have h3 : (0:ℤ) < ⌈(deadline - t) * 2⌉ := by
    rw [Int.ceil_pos]; linarith
  omega

/-- The discovery phase of main: deadline is start plus max(0.1, wait);
if the loop ends with no target, main raises SystemExit with this
message, making the CLI exit non-zero. -/
def mainDiscovery (regs : Nat → RaspiRegistry) (hint : Option String)
    (t0 wait : ℚ) : Outcome :=
  match waitLoop regs hint (t0 + max (1/10) wait) t0 0 with
  | some p => Outcome.selected p
  | none => Outcome.exitNonZero "No raspi_cam discovered within wait window"

/- ============ SessionManager (_session_dir) ============ -/

/-- Identity of a session directory under SAVE_ROOT: either the pinned
subdirectory named by the session hint, or a directory named by the
strftime second-granularity timestamp taken when it was minted. -/
inductive Dir where
  | hinted (s : String)
  | stamped (t : Int)
deriving DecidableEq, Repr

/-- The in-process session cache _sessions: name key to (directory,
created-at). -/
abbrev SessionCache := List (String × Dir × Int)

/-- Python truthiness of an optional string. -/
def pyTruthy (v : Option String) : Bool :=
  match v with
  | none => false
  | some s => s ≠ ""

/-- Characters removed by Python str.strip without arguments (the common
ASCII whitespace). -/
def pySpace (c : Char) : Bool :=
  c = ' ' ∨ c = '\t' ∨ c = '\n' ∨ c = '\r' ∨ c = Char.ofNat 11 ∨ c = Char.ofNat 12

/-- Python str.strip: drop whitespace from both ends. -/
def pyStrip (s : String) : String :=
  String.mk (((s.data.dropWhile pySpace).reverse.dropWhile pySpace).reverse)

/-- The cache key of _session_dir: (name or "_default").strip() or
"_default". -/
def sessionKey (name : Option String) : String :=
  let s := pyStrip (strOr name "_default")
  if s = "" then "_default" else s

/-- The function _session_dir of receiver_vlm.py: a truthy session hint always pins to
that subdirectory and leaves the cache alone; otherwise a cached entry
for the name key is reused while now minus its creation time is at most
the reuse window, and otherwise a fresh directory stamped with the
current time is minted and stored under the key. The reuse window W is
SESSION_REUSE_SEC (120 by default, configurable by environment). -/
def session_dir (W : Int) (st : SessionCache) (name : Option String)
    (session_hint : Option String) (now : Int) : Dir × SessionCache :=
  if pyTruthy session_hint then (Dir.hinted (session_hint.getD ""), st)
  else
    match List.lookup (sessionKey name) st with
    | some (d, created) =>
      if now - created ≤ W then (d, st)
      else (Dir.stamped now, dictUpsert st (sessionKey name) (Dir.stamped now, now))
    | none =>
      (Dir.stamped now, dictUpsert st (sessionKey name) (Dir.stamped now, now))

/- ============ Concrete scenario data ============ -/

/-- Beacon payload of a node announcing host cam-A. -/
def camApayload : Payload :=
  Payload.mk (some "raspi_cam") (some "cam-A") (some "10.0.0.1") none none

/-- Beacon payload of a node announcing host cam-B. -/
def camBpayload : Payload :=
  Payload.mk (some "raspi_cam") (some "cam-B") (some "10.0.0.2") none none

/-- Registry after cam-A is registered at time 1 and cam-B at time 2. -/
def camReg2 : RaspiRegistry :=
  RaspiRegistry.update
    (RaspiRegistry.update [] camApayload "10.0.0.1" 1) camBpayload "10.0.0.2" 2

/-- The record held for cam-A in camReg2. -/
def camArec : PeerInfo :=
  PeerInfo.mk "cam-A" "10.0.0.1" "" "" 1 camApayload

/-- The record held for cam-B in camReg2. -/
def camBrec : PeerInfo :=
  PeerInfo.mk "cam-B" "10.0.0.2" "" "" 2 camBpayload

/- ==================== Theorems ==================== -/

/- ---- FrameTransport helpers ---- -/

theorem recv_exact_append (a b : List Nat) :
    recv_exact (a ++ b) a.length = some (a, b) := by
  simp [recv_exact, List.take_left, List.drop_left]

theorem recv_exact_two (a b : Nat) (t : List Nat) :
    recv_exact (a :: b :: t) 2 = some ([a, b], t) := by
  simpa using recv_exact_append [a, b] t

theorem recv_exact_four (a b c d : Nat) (t : List Nat) :
    recv_exact (a :: b :: c :: d :: t) 4 = some ([a, b, c, d], t) := by
  simpa using recv_exact_append [a, b, c, d] t

theorem recv_exact_short (s : List Nat) (n : Nat) (h : s.length < n) :
    recv_exact s n = none := by
  simp [recv_exact]; omega

theorem unpack16_be16 (n : Nat) (h : n < 65536) : unpack16 (be16 n) = n := by
  simp [be16, unpack16]; omega

theorem unpack32_be32 (n : Nat) (h : n < 4294967296) : unpack32 (be32 n) = n := by
  simp [be32, unpack32]; omega

theorem recv_exact_be16 (n : Nat) (t : List Nat) :
    recv_exact (be16 n ++ t) 2 = some (be16 n, t) := by
  have h := recv_exact_append (be16 n) t
  rw [show (be16 n).length = 2 from rfl] at h
  exact h

theorem recv_exact_be32 (n : Nat) (t : List Nat) :
    recv_exact (be32 n ++ t) 4 = some (be32 n, t) := by
  have h := recv_exact_append (be32 n) t
  rw [show (be32 n).length = 4 from rfl] at h
  exact h

theorem handleLoop_step (fuel : Nat) (f : FrameMsg) (rest : List Nat)
    (acc : List FrameMsg) (hv : ValidFrame f) :
    handleLoop (fuel + 1) (encodeFrame f ++ rest) acc
      = handleLoop fuel rest (f :: acc) := by
  obtain ⟨nm, im⟩ := f
  have hv2 : nm.length < 65536 ∧ im.length < 4294967296 := hv
  obtain ⟨h1, h2⟩ := hv2
  rw [encodeFrame, magic]
  simp only [List.cons_append, List.nil_append, List.append_assoc]
  rw [handleLoop]
  simp only [List.isEmpty_cons, Bool.false_eq_true, if_false]
  rw [show ∀ t : List Nat, (73 :: 77 :: 71 :: 49 :: t).take 4 = [73, 77, 71, 49]
    from fun _ => rfl]
  rw [if_pos (by rw [magic])]
  rw [show ∀ t : List Nat, (73 :: 77 :: 71 :: 49 :: t).drop 4 = t from fun _ => rfl]
  simp only [recv_exact_be16, recv_exact_be32, unpack16_be16 nm.length h1,
    unpack32_be32 im.length h2, recv_exact_append]

theorem handleLoop_stream (frames : List FrameMsg) (g : Nat) (tail : List Nat)
    (acc : List FrameMsg) (hv : ∀ f ∈ frames, ValidFrame f) :
    handleLoop (frames.length + g) (encodeStream frames ++ tail) acc
      = handleLoop g tail (frames.reverse ++ acc) := by
  induction frames generalizing acc with
  | nil => simp [encodeStream]
  | cons f fs ih =>
    rw [encodeStream, List.append_assoc]
    rw [show (f :: fs).length + g = (fs.length + g) + 1 by simp; omega]
    rw [handleLoop_step (fs.length + g) f (encodeStream fs ++ tail) acc
      (hv f (by simp))]
    rw [ih (f :: acc) (fun x hx => hv x (by simp [hx]))]
    simp

theorem encodeStream_length_ge (frames : List FrameMsg) :
    frames.length ≤ (encodeStream frames).length := by
  induction frames with
  | nil => simp [encodeStream]
  | cons f fs ih =>
    rw [encodeStream]
    simp only [List.length_cons, List.length_append]
    have : 1 ≤ (encodeFrame f).length := by
      rw [encodeFrame, magic]
      simp
    omega

theorem handle_client_stream (frames : List FrameMsg) (tail : List Nat)
    (hv : ∀ f ∈ frames, ValidFrame f) :
    ∃ g, 1 ≤ g ∧
      handle_client (encodeStream frames ++ tail) = handleLoop g tail frames.reverse := by
  have hlen := encodeStream_length_ge frames
  refine ⟨(encodeStream frames ++ tail).length + 1 - frames.length, by
    simp only [List.length_append]; omega, ?_⟩
  rw [handle_client]
  rw [show (encodeStream frames ++ tail).length + 1
      = frames.length + ((encodeStream frames ++ tail).length + 1 - frames.length) by
    simp only [List.length_append]; omega]
  rw [handleLoop_stream frames _ tail [] hv]
  simp

theorem handleLoop_nil (g : Nat) (acc : List FrameMsg) :
    handleLoop (g + 1) [] acc = DecResult.eos acc.reverse := by
  rw [handleLoop]
  simp

theorem handleLoop_midheader (g : Nat) (extra : List Nat) (acc : List FrameMsg)
    (hx : extra.length < 6) :
    handleLoop (g + 1) (magic ++ extra) acc = DecResult.connClosed acc.reverse := by
  rw [magic]
  simp only [List.cons_append, List.nil_append]
  rw [handleLoop]
  simp only [List.isEmpty_cons, Bool.false_eq_true, if_false]
  rw [show ∀ t : List Nat, (73 :: 77 :: 71 :: 49 :: t).take 4 = [73, 77, 71, 49]
    from fun _ => rfl]
  rw [if_pos (by rw [magic])]
  rw [show ∀ t : List Nat, (73 :: 77 :: 71 :: 49 :: t).drop 4 = t from fun _ => rfl]
  by_cases h2 : extra.length < 2
  · simp only [recv_exact_short extra 2 h2]
  · simp only [show recv_exact extra 2 = some (extra.take 2, extra.drop 2) by
      rw [recv_exact]; rw [if_pos (by omega)],
      recv_exact_short (extra.drop 2) 4 (by simp; omega)]

theorem handleLoop_badmagic (g : Nat) (junk rest : List Nat) (acc : List FrameMsg)
    (hl : junk.length = 4) (hm : junk ≠ magic) :
    handleLoop (g + 1) (junk ++ rest) acc = DecResult.badMagic acc.reverse := by
  match junk, hl with
  | [a, b, c, d], _ =>
    simp only [List.cons_append, List.nil_append]
    rw [handleLoop]
    simp only [List.isEmpty_cons, Bool.false_eq_true, if_false]
    rw [show ∀ t : List Nat, (a :: b :: c :: d :: t).take 4 = [a, b, c, d]
      from fun _ => rfl]
    rw [if_neg hm]

/-- C5: decoding a valid FrameTransport byte stream with the receiver loop
of frame_receiver.py recovers exactly the frames the sender encoded (hence
re-encoding those frames reproduces the identical bytes), and in every
encoded frame the big-endian length fields decode back to the exact name
and image payload sizes. -/
theorem frame_stream_roundtrip (frames : List FrameMsg)
    (hv : ∀ f ∈ frames, ValidFrame f) :
    handle_client (encodeStream frames) = DecResult.eos frames ∧
    encodeStream frames = encodeStream frames ∧
    ∀ f ∈ frames,
      unpack16 (((encodeFrame f).drop 4).take 2) = f.name.length ∧
      unpack32 ((((encodeFrame f).drop 4).drop 2).take 4) = f.image.length := by
  refine ⟨?_, rfl, ?_⟩
  · obtain ⟨g, hg, hrun⟩ := handle_client_stream frames [] hv
    obtain ⟨g', rfl⟩ : ∃ g', g = g' + 1 := ⟨g - 1, by omega⟩
    rw [show encodeStream frames ++ [] = encodeStream frames by simp] at hrun
    rw [hrun, handleLoop_nil]
    simp
  · intro f hf
    obtain ⟨h1, h2⟩ : f.name.length < 65536 ∧ f.image.length < 4294967296 := hv f hf
    constructor
    · rw [show ((encodeFrame f).drop 4).take 2 = be16 f.name.length by
        rw [encodeFrame, magic]
        simp only [List.cons_append, List.nil_append, List.append_assoc]
        rw [show ∀ t : List Nat, (73 :: 77 :: 71 :: 49 :: t).drop 4 = t
          from fun _ => rfl]
        rw [show (be16 f.name.length ++ (be32 f.image.length ++ (f.name ++ f.image))).take 2
            = be16 f.name.length from rfl]]
      exact unpack16_be16 f.name.length h1
    · rw [show (((encodeFrame f).drop 4).drop 2).take 4 = be32 f.image.length by
        rw [encodeFrame, magic]
        simp only [List.cons_append, List.nil_append, List.append_assoc]
        rw [show ∀ t : List Nat, (73 :: 77 :: 71 :: 49 :: t).drop 4 = t
          from fun _ => rfl]
        rw [show ((be16 f.name.length ++ (be32 f.image.length ++ (f.name ++ f.image))).drop 2).take 4
            = be32 f.image.length from rfl]]
      exact unpack32_be32 f.image.length h2

/-- Witness for C5 at a concrete two-frame stream. -/
theorem frame_stream_roundtrip_witness :
    handle_client (encodeStream [FrameMsg.mk [116] [9, 8, 7], FrameMsg.mk [] []])
      = DecResult.eos [FrameMsg.mk [116] [9, 8, 7], FrameMsg.mk [] []] ∧
    unpack16 (((encodeFrame (FrameMsg.mk [116] [9, 8, 7])).drop 4).take 2) = 1 :=
  ⟨(frame_stream_roundtrip [FrameMsg.mk [116] [9, 8, 7], FrameMsg.mk [] []]
      (by decide)).1,
   ((frame_stream_roundtrip [FrameMsg.mk [116] [9, 8, 7], FrameMsg.mk [] []]
      (by decide)).2.2 (FrameMsg.mk [116] [9, 8, 7]) (by decide)).1⟩

/-- C2 counterexample: a connection that delivers one valid magic and then
closes cleanly (stream IMG1 with nothing after it) makes handle_client
raise the ConnectionError of recv_exact; it is not treated as a normal
end-of-stream, contradicting the claim that a clean close after the magic
but mid-header is end-of-stream. -/
theorem midheader_close_is_error :
    handle_client [73, 77, 71, 49] = DecResult.connClosed [] ∧
    handle_client [73, 77, 71, 49] ≠ DecResult.eos [] := by decide

/-- C2 amended: a clean close before any byte of the next frame header is
read is a normal end-of-stream; a clean close after the magic but before
the header and payloads are complete aborts the connection with the
ConnectionError raised by recv_exact (an error, not end-of-stream); and a
non-matching 4-byte magic is a fatal framing error that aborts the
connection immediately, with everything after the bad magic left
unexamined (no resynchronization). -/
theorem framing_error_cases (frames : List FrameMsg) (extra junk rest : List Nat)
    (hv : ∀ f ∈ frames, ValidFrame f) (hx : extra.length < 6)
    (hj : junk.length = 4) (hm : junk ≠ magic) :
    handle_client (encodeStream frames) = DecResult.eos frames ∧
    handle_client (encodeStream frames ++ (magic ++ extra))
      = DecResult.connClosed frames ∧
    handle_client (encodeStream frames ++ (junk ++ rest))
      = DecResult.badMagic frames := by
  refine ⟨?_, ?_, ?_⟩
  · obtain ⟨g, hg, hrun⟩ := handle_client_stream frames [] hv
    obtain ⟨g', rfl⟩ : ∃ g', g = g' + 1 := ⟨g - 1, by omega⟩
    rw [show encodeStream frames ++ [] = encodeStream frames by simp] at hrun
    rw [hrun, handleLoop_nil]
    simp
  · obtain ⟨g, hg, hrun⟩ := handle_client_stream frames (magic ++ extra) hv
    obtain ⟨g', rfl⟩ : ∃ g', g = g' + 1 := ⟨g - 1, by omega⟩
    rw [hrun, handleLoop_midheader g' extra frames.reverse hx]
    simp
  · obtain ⟨g, hg, hrun⟩ := handle_client_stream frames (junk ++ rest) hv
    obtain ⟨g', rfl⟩ : ∃ g', g = g' + 1 := ⟨g - 1, by omega⟩
    rw [hrun, handleLoop_badmagic g' junk rest frames.reverse hj hm]
    simp

/-- Witness for the amended C2 at concrete streams. -/
theorem framing_error_cases_witness :
    handle_client (encodeStream [FrameMsg.mk [110] [5]])
      = DecResult.eos [FrameMsg.mk [110] [5]] ∧
    handle_client (encodeStream [FrameMsg.mk [110] [5]] ++ (magic ++ [0]))
      = DecResult.connClosed [FrameMsg.mk [110] [5]] ∧
    handle_client (encodeStream [FrameMsg.mk [110] [5]] ++ ([74, 80, 71, 49] ++ [1, 2]))
      = DecResult.badMagic [FrameMsg.mk [110] [5]] :=
  framing_error_cases [FrameMsg.mk [110] [5]] [0] [74, 80, 71, 49] [1, 2]
    (by decide) (by decide) (by decide) (by decide)

/- ---- CaptureWorker helpers ---- -/

theorem captureFrom_nosleep (name : String) (count : Int) (interval : ℚ)
    (hni : ¬ 0 < interval) :
    ∀ fuel i, captureFrom name count interval i fuel
      = (List.range' i fuel).map (Ev.frame name) := by
  intro fuel
  induction fuel with
  | zero => intro i; simp [captureFrom]
  | succ f ih =>
    intro i
    rw [captureFrom, if_neg (by tauto), ih (i + 1)]
    simp [List.range'_succ]

theorem captureFrom_sleep (name : String) (count : Int) (interval : ℚ)
    (hpos : 0 < interval) :
    ∀ (fuel i : Nat), (i : Int) + (fuel : Int) = max 1 count →
      captureFrom name count interval i fuel
        = List.intersperse (Ev.sleep interval)
            ((List.range' i fuel).map (Ev.frame name)) := by
  intro fuel
  induction fuel with
  | zero => intro i _; simp [captureFrom]
  | succ f ih =>
    intro i hi
    match f, ih with
    | 0, _ =>
      have hcond : ¬ ((i : Int) < count - 1 ∧ 0 < interval) := by
        intro hc
        have h1 : (1:Int) ≤ max 1 count := le_max_left 1 count
        have h2 : count ≤ max 1 count := le_max_right 1 count
        omega
      rw [captureFrom, captureFrom, if_neg hcond]
      simp [List.range'_succ]
    | f' + 1, ih =>
      have hcond : (i : Int) < count - 1 ∧ 0 < interval := by
        refine ⟨?_, hpos⟩
        have h1 : (1:Int) ≤ max 1 count := le_max_left 1 count
        have hm : max 1 count = count ∨ max 1 count = 1 := by
          rcases le_total 1 count with h | h
          · left; exact max_eq_right h
          · right; exact max_eq_left h
        omega
      rw [captureFrom, if_pos hcond, ih (i + 1) (by push_cast; push_cast at hi; omega)]
      simp only [List.range'_succ, List.map_cons, List.intersperse_cons_cons,
        List.cons_append, List.nil_append]

/-- C4: capture_and_send iterates exactly max(1, count) times, producing
the frames with indices 0 to max(1, count) - 1 in order, with a sleep of
interval seconds between consecutive frames when interval is positive and
never after the last frame (the event list ends with the last frame, and
the sleeps are strictly interspersed between frames). -/
theorem capture_and_send_shape (name : String) (count : Int) (interval : ℚ) :
    capture_and_send name count interval
      = (if 0 < interval then
          List.intersperse (Ev.sleep interval)
            ((List.range (max 1 count).toNat).map (Ev.frame name))
        else (List.range (max 1 count).toNat).map (Ev.frame name)) ∧
    ((List.range (max 1 count).toNat).map (Ev.frame name)).length
      = (max 1 count).toNat := by
  constructor
  · rw [List.range_eq_range']
    have hcast : (((max 1 count).toNat : Int)) = max 1 count := by
      have h1 : (1:Int) ≤ max 1 count := le_max_left 1 count
      exact Int.toNat_of_nonneg (by omega)
    by_cases hpos : 0 < interval
    · rw [if_pos hpos, capture_and_send,
        captureFrom_sleep name count interval hpos ((max 1 count).toNat) 0
          (by simp [hcast])]
    · rw [if_neg hpos, capture_and_send,
        captureFrom_nosleep name count interval hpos ((max 1 count).toNat) 0]
  · simp

/-- C1 counterexample: in the trace of capture_and_send for name t,
count 3, interval 0, the second frame is uploaded with name form field t
and separate index form field 1, and the decimal representation of its
index does not occur anywhere in the sent name: the indices are not
embedded in the sent name, contradicting the claim. -/
theorem capture_index_not_in_name :
    Ev.frame "t" 1 ∈ capture_and_send "t" 3 0 ∧
    substrB (toString (1 : Nat)).data "t".data = false := by decide

/-- C1 amended: for a capture request with name t, count 3, interval 0,
capture_and_send produces exactly 3 frame uploads in order with indices
0, 1 and 2 carried in the separate index form field of each upload, the
name field staying t unchanged, and with no inter-frame delay (no sleep
events at all); each frame is sent as its own HTTP upload to the
receiver. -/
theorem capture_three_frames :
    capture_and_send "t" 3 0
      = [Ev.frame "t" 0, Ev.frame "t" 1, Ev.frame "t" 2] := by decide

/- ---- Registry helpers ---- -/

theorem insertDesc_perm (x : PeerInfo) (l : List PeerInfo) :
    (insertDesc x l).Perm (x :: l) := by
  induction l with
  | nil => simp [insertDesc]
  | cons y ys ih =>
    rw [insertDesc]
    split
    · exact (ih.cons y).trans (List.Perm.swap x y ys)
    · exact List.Perm.refl _

theorem sortDescAux_perm (l : List PeerInfo) : ∀ acc : List PeerInfo,
    (l.foldl (fun acc x => insertDesc x acc) acc).Perm (l ++ acc) := by
  induction l with
  | nil => intro acc; simp
  | cons x xs ih =>
    intro acc
    rw [List.foldl_cons]
    refine (ih (insertDesc x acc)).trans ?_
    refine (List.Perm.append_left xs (insertDesc_perm x acc)).trans ?_
    exact List.perm_middle

theorem list_all_perm (reg : RaspiRegistry) :
    (RaspiRegistry.list_all reg).Perm (reg.map Prod.snd) := by
  have h := sortDescAux_perm (reg.map Prod.snd) []
  rw [List.append_nil] at h
  exact h

theorem insertDesc_pairwise (x : PeerInfo) (l : List PeerInfo)
    (h : l.Pairwise (fun a b => b.last_seen ≤ a.last_seen)) :
    (insertDesc x l).Pairwise (fun a b => b.last_seen ≤ a.last_seen) := by
  induction l with
  | nil => simp [insertDesc]
  | cons y ys ih =>
    rw [List.pairwise_cons] at h
    obtain ⟨hy, hys⟩ := h
    rw [insertDesc]
    split
    · rename_i hle
      rw [List.pairwise_cons]
      refine ⟨?_, ih hys⟩
      intro z hz
      rcases List.mem_cons.mp ((insertDesc_perm x ys).mem_iff.mp hz) with rfl | hz2
      · exact hle
      · exact hy z hz2
    · rename_i hgt
      rw [List.pairwise_cons]
      refine ⟨?_, List.pairwise_cons.mpr ⟨hy, hys⟩⟩
      intro z hz
      rcases List.mem_cons.mp hz with rfl | hz2
      · exact le_of_not_le hgt
      · exact le_trans (hy z hz2) (le_of_not_le hgt)

theorem sortDescAux_pairwise (l : List PeerInfo) : ∀ acc : List PeerInfo,
    acc.Pairwise (fun a b => b.last_seen ≤ a.last_seen) →
    (l.foldl (fun acc x => insertDesc x acc) acc).Pairwise
      (fun a b => b.last_seen ≤ a.last_seen) := by
  induction l with
  | nil => intro acc h; simpa using h
  | cons x xs ih =>
    intro acc h
    rw [List.foldl_cons]
    exact ih _ (insertDesc_pairwise x acc h)

theorem list_all_pairwise (reg : RaspiRegistry) :
    (RaspiRegistry.list_all reg).Pairwise (fun a b => b.last_seen ≤ a.last_seen) :=
  sortDescAux_pairwise (reg.map Prod.snd) [] (by simp)

theorem dictUpsert_key_mem {β : Type} (l : List (String × β)) (k : String) (v : β) :
    k ∈ (dictUpsert l k v).map Prod.fst := by
  induction l with
  | nil => simp [dictUpsert]
  | cons p rest ih =>
    obtain ⟨k', v'⟩ := p
    rw [dictUpsert]
    split
    · simp
    · simpa using Or.inr ih

theorem dictUpsert_length_of_mem {β : Type} (l : List (String × β)) (k : String)
    (v : β) (h : k ∈ l.map Prod.fst) : (dictUpsert l k v).length = l.length := by
  induction l with
  | nil => simp at h
  | cons p rest ih =>
    obtain ⟨k', v'⟩ := p
    rw [dictUpsert]
    split
    · simp
    · rename_i hne
      rw [List.map_cons] at h
      rcases List.mem_cons.mp h with h2 | h2
      · exact absurd h2.symm hne
      · simpa using ih h2

theorem lookup_dictUpsert {β : Type} (l : List (String × β)) (k : String) (v : β) :
    List.lookup k (dictUpsert l k v) = some v := by
  induction l with
  | nil => simp [dictUpsert]
  | cons p rest ih =>
    obtain ⟨k', v'⟩ := p
    rw [dictUpsert]
    split
    · simp
    · rename_i hne
      have hbeq : (k == k') = false := by
        simp only [beq_eq_false_iff_ne, ne_eq]
        intro h2
        exact hne h2.symm
      simpa [List.lookup, hbeq] using ih

theorem update_length_stable (reg : RaspiRegistry) (p : Payload) (src : String)
    (t2 : Int) (hk : p.type = some "raspi_cam" → payloadKey p src ∈ reg.map Prod.fst) :
    (RaspiRegistry.update reg p src t2).length = reg.length ∧
    (p.type = some "raspi_cam" →
      payloadKey p src ∈ (RaspiRegistry.update reg p src t2).map Prod.fst) := by
  by_cases ht : p.type = some "raspi_cam"
  · rw [RaspiRegistry.update, if_neg (by simp [ht])]
    exact ⟨dictUpsert_length_of_mem _ _ _ (hk ht), fun _ => dictUpsert_key_mem _ _ _⟩
  · rw [RaspiRegistry.update, if_pos (by simpa using ht)]
    exact ⟨rfl, fun h => absurd h ht⟩

theorem foldl_update_length (p : Payload) (src : String) (ts : List Int) :
    ∀ reg0 : RaspiRegistry,
    (p.type = some "raspi_cam" → payloadKey p src ∈ reg0.map Prod.fst) →
    (ts.foldl (fun r t2 => RaspiRegistry.update r p src t2) reg0).length
      = reg0.length := by
  induction ts with
  | nil => intro reg0 _; rfl
  | cons t2 rest ih =>
    intro reg0 h0
    rw [List.foldl_cons]
    obtain ⟨hlen, hmem⟩ := update_length_stable reg0 p src t2 h0
    rw [ih _ hmem, hlen]

theorem list_all_length (reg : RaspiRegistry) :
    (RaspiRegistry.list_all reg).length = reg.length := by
  rw [(list_all_perm reg).length_eq, List.length_map]

/- ---- Registry claims ---- -/

/-- C7: latest always returns a record of list_all whose last_seen is
maximal among list_all, and returns none exactly when the registry is
empty. -/
theorem latest_is_max (reg : RaspiRegistry) :
    (RaspiRegistry.latest reg = none ↔ reg = []) ∧
    ∀ r, RaspiRegistry.latest reg = some r →
      r ∈ RaspiRegistry.list_all reg ∧
      ∀ x ∈ RaspiRegistry.list_all reg, x.last_seen ≤ r.last_seen := by
  constructor
  · constructor
    · intro h
      cases hreg : reg with
      | nil => rfl
      | cons a t =>
        exfalso
        rw [RaspiRegistry.latest] at h
        have hlen := (list_all_perm reg).length_eq
        cases hl : RaspiRegistry.list_all reg with
        | nil =>
          rw [hl, hreg] at hlen
          simp at hlen
        | cons b u =>
          rw [hl] at h
          simp at h
    · intro h
      subst h
      rfl
  · intro r hr
    rw [RaspiRegistry.latest] at hr
    have hpw := list_all_pairwise reg
    cases hl : RaspiRegistry.list_all reg with
    | nil =>
      rw [hl] at hr
      simp at hr
    | cons a t =>
      rw [hl] at hr
      simp only [List.head?_cons, Option.some.injEq] at hr
      subst hr
      rw [hl] at hpw
      rw [List.pairwise_cons] at hpw
      refine ⟨by simp, ?_⟩
      intro x hx
      rcases List.mem_cons.mp hx with rfl | hx2
      · exact le_refl _
      · exact hpw.1 x hx2

/-- Witness for C7 on the concrete two-peer registry. -/
theorem latest_is_max_witness :
    RaspiRegistry.latest camReg2 = some camBrec ∧
    camBrec ∈ RaspiRegistry.list_all camReg2 :=
  ⟨by decide, ((latest_is_max camReg2).2 camBrec (by decide)).1⟩

/-- C8: applying update any number of further times with the same payload
and source (hence the same derived key host@ip) never grows the size of
list_all beyond the size after the first update: the upsert is idempotent
per identity. -/
theorem update_idempotent_size (reg : RaspiRegistry) (p : Payload) (src : String)
    (t : Int) (ts : List Int) :
    (RaspiRegistry.list_all
        (ts.foldl (fun r t2 => RaspiRegistry.update r p src t2)
          (RaspiRegistry.update reg p src t))).length
      = (RaspiRegistry.list_all (RaspiRegistry.update reg p src t)).length := by
  rw [list_all_length, list_all_length]
  apply foldl_update_length
  intro ht
  rw [RaspiRegistry.update, if_neg (by simp [ht])]
  exact dictUpsert_key_mem _ _ _

/-- C3 counterexample: with peers registered as cam-A (at time 1) and then
cam-B (at time 2), find_by_host with needle a returns the record for
cam-B, not cam-A: the needle a occurs case-insensitively in both hosts
(both start with cam) and cam-B is the newest. -/
theorem find_by_host_prefers_newest :
    RaspiRegistry.find_by_host camReg2 "a" = some camBrec ∧
    camBrec ≠ camArec ∧ camBrec.host = "cam-B" := by decide

/-- C3 amended: find_by_host returns the first record of the newest-first
list_all whose host contains the needle case-insensitively; every record
that is strictly newer than the returned one does not match. In
particular, with peers registered as cam-A then cam-B, find_by_host with
needle a returns the record for cam-B, since a matches both hosts and
cam-B is newer. -/
theorem find_by_host_spec (reg : RaspiRegistry) (sub : String) (r : PeerInfo)
    (hfind : RaspiRegistry.find_by_host reg sub = some r) :
    (hostMatches sub r = true ∧ r ∈ RaspiRegistry.list_all reg ∧
      ∀ x ∈ RaspiRegistry.list_all reg, r.last_seen < x.last_seen →
        hostMatches sub x = false) ∧
    RaspiRegistry.find_by_host camReg2 "a" = some camBrec := by
  constructor
  · rw [RaspiRegistry.find_by_host, List.find?_eq_some] at hfind
    obtain ⟨hp, as, bs, hsplit, hfail⟩ := hfind
    refine ⟨hp, by rw [hsplit]; simp, ?_⟩
    intro x hx hlt
    have hpw := list_all_pairwise reg
    rw [hsplit] at hx hpw
    rcases List.mem_append.mp hx with hxas | hxrbs
    · simpa using hfail x hxas
    · rcases List.mem_cons.mp hxrbs with rfl | hxbs
      · exact absurd hlt (lt_irrefl _)
      · have h2 := (List.pairwise_append.mp hpw).2.1
        rw [List.pairwise_cons] at h2
        exact absurd hlt (not_lt.mpr (h2.1 x hxbs))
  · decide

/-- Witness for the amended C3 on the concrete two-peer registry. -/
theorem find_by_host_spec_witness :
    hostMatches "a" camBrec = true ∧
    RaspiRegistry.find_by_host camReg2 "a" = some camBrec :=
  ⟨((find_by_host_spec camReg2 "a" camBrec (by decide)).1).1,
   (find_by_host_spec camReg2 "a" camBrec (by decide)).2⟩

/-- C10: a payload of type raspi_cam with missing or empty host and ip is
still registered: update stores a record under the derived key
raspi@src_ip with host defaulted to raspi and ip defaulted to the
datagram source address; the beacon is not discarded. -/
theorem update_default_registration (reg : RaspiRegistry) (p : Payload)
    (src : String) (t : Int) (htype : p.type = some "raspi_cam")
    (hhost : p.host = none ∨ p.host = some "")
    (hip : p.ip = none ∨ p.ip = some "") :
    List.lookup ("raspi@" ++ src) (RaspiRegistry.update reg p src t)
      = some (PeerInfo.mk "raspi" src (strOr p.iface "")
          (strOr p.receiver_url "") t p) := by
  have hh : strOr p.host "raspi" = "raspi" := by
    rcases hhost with h | h <;> simp [strOr, h]
  have hi2 : strOr p.ip src = src := by
    rcases hip with h | h <;> simp [strOr, h]
  rw [RaspiRegistry.update, if_neg (by simp [htype]), payloadKey, hh, hi2]
  rw [show ("raspi" ++ "@" : String) = "raspi@" from rfl]
  exact lookup_dictUpsert reg _ _

/-- Witness for C10 at a concrete empty-host, empty-ip beacon. -/
theorem update_default_registration_witness :
    List.lookup "raspi@192.168.1.7"
      (RaspiRegistry.update []
        (Payload.mk (some "raspi_cam") none (some "") none none) "192.168.1.7" 5)
      = some (PeerInfo.mk "raspi" "192.168.1.7" "" "" 5
          (Payload.mk (some "raspi_cam") none (some "") none none)) := by
  have h := update_default_registration []
    (Payload.mk (some "raspi_cam") none (some "") none none) "192.168.1.7" 5
    rfl (Or.inl rfl) (Or.inr rfl)
  exact h

/- ---- Selector / discovery wait loop ---- -/

theorem waitLoop_none (regs : Nat → RaspiRegistry) (hint : Option String)
    (deadline t : ℚ) (k : Nat)
    (hnone : ∀ j, choose_target (regs j) hint = none) :
    waitLoop regs hint deadline t k = none := by
  rw [waitLoop.eq_def]
  split
  · rw [hnone k]
    exact waitLoop_none regs hint deadline (t + 1/2) (k + 1) hnone
  · rfl
termination_by (⌈(deadline - t) * 2⌉).toNat
decreasing_by
  rw [show (deadline - (t + 1/2)) * 2 = (deadline - t) * 2 - 1 by ring,
    Int.ceil_sub_one]
  have h3 : (0:ℤ) < ⌈(deadline - t) * 2⌉ := by
    rw [Int.ceil_pos]
    linarith
  omega

/-- C9: the selector is retried (with a half-second sleep advancing the
clock between attempts) until a peer is found or the bounded deadline
start plus max(0.1, wait) elapses; the loop is total (it terminates on
every input, never blocking indefinitely), a matching attempt before the
deadline returns that peer, and when no attempt ever matches (in
particular a host hint that never matches any peer), the loop ends with
none and main raises the SystemExit that makes the CLI exit non-zero. -/
theorem discovery_bounded_wait (regs : Nat → RaspiRegistry) (hint : Option String)
    (t0 wait : ℚ) (hnone : ∀ j, choose_target (regs j) hint = none) :
    mainDiscovery regs hint t0 wait
      = Outcome.exitNonZero "No raspi_cam discovered within wait window" ∧
    ∀ (regs2 : Nat → RaspiRegistry) (hint2 : Option String) (d t : ℚ) (k : Nat)
      (p : PeerInfo), t < d → choose_target (regs2 k) hint2 = some p →
      waitLoop regs2 hint2 d t k = some p := by
  constructor
  · rw [mainDiscovery, waitLoop_none regs hint _ t0 0 hnone]
  · intro regs2 hint2 d t k p hlt hsome
    rw [waitLoop.eq_def, if_pos hlt, hsome]

/-- Witness for C9: a registry that stays empty and a host hint that never
matches make the CLI exit non-zero at the deadline. -/
theorem discovery_bounded_wait_witness :
    mainDiscovery (fun _ => []) (some "pi") 0 1
      = Outcome.exitNonZero "No raspi_cam discovered within wait window" :=
  (discovery_bounded_wait (fun _ => []) (some "pi") 0 1 (fun _ => rfl)).1

/- ---- SessionManager ---- -/

/-- C6: session resolution in _session_dir. A present (truthy) session
hint always resolves to the pinned directory and leaves the cache
untouched, idempotently and regardless of cache state. Without a hint,
every resolution within the reuse window of the cached entry creation
time returns the cached directory unchanged (so two such resolutions
agree), and a resolution after the window elapses mints a fresh directory
stamped with the current time (a different stamp than the cached entry)
and replaces the cache entry for that name key. -/
theorem session_dir_spec (W : Int) (st : SessionCache) (name : Option String)
    (t1 t2 t3 c : Int) (d : Dir) (hW : 0 ≤ W)
    (hc : List.lookup (sessionKey name) st = some (d, c))
    (h1 : t1 - c ≤ W) (h2 : t2 - c ≤ W) (h3 : W < t3 - c) :
    (∀ (st2 : SessionCache) (h : String) (now : Int), h ≠ "" →
        session_dir W st2 name (some h) now = (Dir.hinted h, st2)) ∧
    session_dir W st name none t1 = (d, st) ∧
    session_dir W st name none t2 = (d, st) ∧
    (session_dir W st name none t3).1 = Dir.stamped t3 ∧
    List.lookup (sessionKey name) (session_dir W st name none t3).2
      = some (Dir.stamped t3, t3) ∧
    Dir.stamped t3 ≠ Dir.stamped c := by
  have heval : session_dir W st name none t3
      = (Dir.stamped t3, dictUpsert st (sessionKey name) (Dir.stamped t3, t3)) := by
    rw [session_dir, if_neg (by simp [pyTruthy])]
    simp only [hc]
    rw [if_neg (by omega)]
  refine ⟨?_, ?_, ?_, ?_, ?_, ?_⟩
  · intro st2 h now hne
    rw [session_dir, if_pos (by simp [pyTruthy, hne])]
    rfl
  · rw [session_dir, if_neg (by simp [pyTruthy])]
    simp only [hc]
    rw [if_pos (by omega)]
  · rw [session_dir, if_neg (by simp [pyTruthy])]
    simp only [hc]
    rw [if_pos (by omega)]
  · rw [heval]
  · rw [heval]
    exact lookup_dictUpsert st _ _
  · simp only [ne_eq, Dir.stamped.injEq]
    omega

/-- Witness for C6: cache entry for name x created at time 0, reuse window
120 seconds; resolutions at 50 and 100 reuse the entry, a hinted upload
pins, and a resolution at 130 mints the directory stamped 130. -/
theorem session_dir_spec_witness :
    session_dir 120 [("x", (Dir.stamped 0, 0))] (some "x") (some "pin") 7
      = (Dir.hinted "pin", [("x", (Dir.stamped 0, 0))]) ∧
    session_dir 120 [("x", (Dir.stamped 0, 0))] (some "x") none 50
      = (Dir.stamped 0, [("x", (Dir.stamped 0, 0))]) ∧
    session_dir 120 [("x", (Dir.stamped 0, 0))] (some "x") none 100
      = (Dir.stamped 0, [("x", (Dir.stamped 0, 0))]) ∧
    (session_dir 120 [("x", (Dir.stamped 0, 0))] (some "x") none 130).1
      = Dir.stamped 130 := by
  have h := session_dir_spec 120 [("x", (Dir.stamped 0, 0))] (some "x") 50 100 130 0
    (Dir.stamped 0) (by decide) (by decide) (by decide) (by decide) (by decide)
  exact ⟨h.1 _ "pin" 7 (by decide), h.2.1, h.2.2.1, h.2.2.2.1⟩

end Raspi
